import Mathlib

/-!
Verification of the learning-assistant repository against its specification.

The development shallowly embeds the parts of the code the claims refer to:

* the Supabase schema and the `match_chunks` similarity-search SQL function
  (`supabase_setup.sql`);
* the SSE chat-stream client generator `chatStream` (`client/lib/api.ts`);
* the chat page send handler `handleSend` (`client/app/chat/page.tsx`);
* the Zustand store actions, in particular `updateLastAssistantMessage`
  (`client/lib/store.ts`);
* the domain types (`client/lib/types.ts`);
* the backend provider-rotation engine and the quiz output parser, which are
  not among the supplied files and are modelled from the specification.

Machine-level or external primitives (the pgvector cosine-distance operator
`<=>`, the JavaScript `JSON.parse`) are treated as parameters of the
embedding: every theorem about code that calls them holds for an arbitrary
instantiation of the parameter.
-/

namespace LearningAssistant

/-! ## Vector store: schema and `match_chunks` (supabase_setup.sql)

The `chunks` table has columns id, document_id, content,
embedding vector(768), chunk_index, created_at, with
`document_id references documents(id) on delete cascade`.
Opaque uuid identities are modelled as natural numbers; the embedding
vector is a list of rationals whose length is its dimensionality. -/

/-- Dimensionality fixed by the column type `vector(768)` and by the
`match_chunks` parameter type `query_embedding vector(768)`. -/
def vectorDim : Nat := 768

/-- A row of the `chunks` table. -/
structure ChunkRow where
  id : Nat
  document_id : Nat
  content : String
  embedding : List ℚ
  chunk_index : Int
  deriving DecidableEq

/-- The SQL `order by embedding <=> query_embedding` comparison between two
rows, for a given distance operator `dist` and query `q`: the row whose
embedding is nearer to the query comes first. -/
def rowLe (dist : List ℚ → List ℚ → ℚ) (q : List ℚ) (a b : ChunkRow) : Prop :=
  dist a.embedding q ≤ dist b.embedding q

instance (dist : List ℚ → List ℚ → ℚ) (q : List ℚ) : DecidableRel (rowLe dist q) :=
  fun _ _ => inferInstanceAs (Decidable (_ ≤ _))

instance (dist : List ℚ → List ℚ → ℚ) (q : List ℚ) : IsTotal ChunkRow (rowLe dist q) :=
  ⟨fun a b => le_total (dist a.embedding q) (dist b.embedding q)⟩

instance (dist : List ℚ → List ℚ → ℚ) (q : List ℚ) : IsTrans ChunkRow (rowLe dist q) :=
  ⟨fun _ _ _ hab hbc => le_trans hab hbc⟩

/-- The rows selected by the body of `match_chunks`:
`from chunks where document_id = doc_id order by embedding <=> query_embedding
limit match_count`.  The pgvector cosine-distance operator `<=>` is external
to the repository, so the embedding is parametric in it (`dist`). -/
def matchChunksRows (dist : List ℚ → List ℚ → ℚ) (store : List ChunkRow)
    (query_embedding : List ℚ) (doc_id : Nat) (match_count : Nat) : List ChunkRow :=
  (List.insertionSort (rowLe dist query_embedding)
    (store.filter (fun r => r.document_id = doc_id))).take match_count

/-- One record of the table returned by `match_chunks`:
`(id, content, 1 - (embedding <=> query_embedding) as similarity)`. -/
structure MatchResult where
  id : Nat
  content : String
  similarity : ℚ
  deriving DecidableEq

/-- The SQL function `match_chunks(query_embedding, doc_id, match_count)`. -/
def match_chunks (dist : List ℚ → List ℚ → ℚ) (store : List ChunkRow)
    (query_embedding : List ℚ) (doc_id : Nat) (match_count : Nat) : List MatchResult :=
  (matchChunksRows dist store query_embedding doc_id match_count).map
    (fun r => ⟨r.id, r.content, 1 - dist r.embedding query_embedding⟩)

/-- The function `match_chunks` with the declared default `match_count int default 5`,
i.e. the call shape used when the caller omits the third argument. -/
def match_chunks_default (dist : List ℚ → List ℚ → ℚ) (store : List ChunkRow)
    (query_embedding : List ℚ) (doc_id : Nat) : List MatchResult :=
  match_chunks dist store query_embedding doc_id 5

/-- The RPC-level call: the declared parameter type `query_embedding
vector(768)` rejects a query embedding of any other dimensionality before
the body runs. -/
def match_chunks_rpc (dist : List ℚ → List ℚ → ℚ) (store : List ChunkRow)
    (query_embedding : List ℚ) (doc_id : Nat) (match_count : Nat) :
    Option (List MatchResult) :=
  if query_embedding.length = vectorDim then
    some (match_chunks dist store query_embedding doc_id match_count)
  else none

/-- One chunk handed to the vector-store write path: generated row id,
ordinal index, content, embedding. -/
structure UpsertItem where
  id : Nat
  chunk_index : Int
  content : String
  embedding : List ℚ
  deriving DecidableEq

/-- Operations the repository performs on the `chunks` table: inserting a
document's chunk rows at ingestion, and deleting a document (which cascades
to its chunks by the schema's `on delete cascade`). -/
inductive StoreOp where
  | upsert (doc_id : Nat) (items : List UpsertItem)
  | deleteDoc (doc_id : Nat)
  deriving DecidableEq

/-- Modelled from the spec: the write path `upsert(document_id,
[(chunk_index, content, embedding)])` of the Vector Store Adapter (the
backend `supabase_ops.py` is not among the supplied files).  Each item
becomes a `chunks` row owned by `doc_id`; the column type `vector(768)`
rejects an embedding of any other dimensionality, which the model renders
as the whole insert failing.  `deleteDoc` is the schema's
`on delete cascade`: deleting a document removes exactly its chunk rows. -/
def applyOp (st : List ChunkRow) : StoreOp → Option (List ChunkRow)
  | .upsert doc_id items =>
    if items.all (fun it => it.embedding.length == vectorDim) then
      some (st ++ items.map (fun it => ⟨it.id, doc_id, it.content, it.embedding, it.chunk_index⟩))
    else none
  | .deleteDoc doc_id => some (st.filter (fun r => r.document_id ≠ doc_id))

/-- Running a sequence of store operations from the empty store. -/
def runOps (ops : List StoreOp) : Option (List ChunkRow) :=
  ops.foldlM applyOp []

/-! ## Domain types (client/lib/types.ts) -/

/-- The `role: "user" | "assistant"` field of `ChatMessage`. -/
inductive Role where
  | user
  | assistant
  deriving DecidableEq

/-- Type `ChatMessage` from client/lib/types.ts: role, content, optional
timestamp (`Date` modelled as a natural number). -/
structure ChatMessage where
  role : Role
  content : String
  timestamp : Option Nat
  deriving DecidableEq

/-- Type `ChatStreamChunk` from client/lib/types.ts: the shape the client
ascribes to each parsed SSE payload. -/
structure ChatStreamChunk where
  content : String
  done : Bool
  error : Option String
  deriving DecidableEq

/-- Type `Flashcard` from client/lib/types.ts. -/
structure Flashcard where
  question : String
  answer : String
  deriving DecidableEq

/-- The labels of the four quiz options; `correct_answer: "A" | "B" | "C" | "D"`
from client/lib/types.ts. -/
inductive AnswerKey where
  | A
  | B
  | C
  | D
  deriving DecidableEq

/-- The `options: { A; B; C; D }` object of `QuizQuestion`. -/
structure QuizOptions where
  A : String
  B : String
  C : String
  D : String
  deriving DecidableEq

/-- Type `QuizQuestion` from client/lib/types.ts. -/
structure QuizQuestion where
  question : String
  options : QuizOptions
  correct_answer : AnswerKey
  explanation : String
  deriving DecidableEq

/-- The `source_type: "youtube" | "pdf"` field. -/
inductive SourceType where
  | youtube
  | pdf
  deriving DecidableEq

/-- Type `DocumentInfo` from client/lib/store.ts. -/
structure DocumentInfo where
  id : String
  title : String
  source_type : SourceType
  deriving DecidableEq

/-! ## SSE chat-stream client generator `chatStream` (client/lib/api.ts)

The generator reads the response body in chunks, decodes them to text,
buffers, splits the buffer on `"\n"` keeping the final fragment as the new
buffer, and for each complete line starting with `"data: "` trims the
payload and passes it to `JSON.parse` inside a try/catch: a well-formed
payload is yielded (and a chunk with `done` set ends the generator); a
malformed or empty payload is skipped.  When the reader reports the end of
the byte stream the generator simply ends, discarding the trailing buffer.

Decoded text is modelled as `List Char`; `JSON.parse` is a JavaScript
builtin and is modelled as a parameter `parse`, whose result carries the
`ChatStreamChunk` shape the client ascribes to it. -/

/-- Whitespace removed by `String.prototype.trim` (restricted to the ASCII
whitespace characters that can occur here). -/
def isWsChar (c : Char) : Bool :=
  c = ' ' || c = '\t' || c = '\r' || c = '\n'

/-- The effect of `trim()` on a decoded text fragment. -/
def trimText (s : List Char) : List Char :=
  ((s.dropWhile isWsChar).reverse.dropWhile isWsChar).reverse

/-- The effect of `trim()` on a JavaScript string. -/
def trimString (s : String) : String :=
  ⟨trimText s.data⟩

/-- The six characters of the `"data: "` line marker tested by
`line.startsWith("data: ")` and removed by `line.slice(6)`. -/
def sseDataHead : List Char :=
  ['d', 'a', 't', 'a', ':', ' ']

/-- The step `buffer.split("\n")` followed by `buffer = lines.pop()`: the complete
lines, and the trailing fragment kept as the new buffer. -/
def splitLines : List Char → List (List Char) × List Char
  | [] => ([], [])
  | c :: cs =>
    if c = '\n' then ([] :: (splitLines cs).1, (splitLines cs).2)
    else
      match splitLines cs with
      | ([], buf) => ([], c :: buf)
      | (l :: ls, buf) => ((c :: l) :: ls, buf)

/-- The inner `for (const line of lines)` loop of `chatStream`: processes
complete lines in order, yielding the parsed chunks; the Boolean is true
when a chunk with `done` set was yielded, in which case the generator
returns immediately (no further line is examined). -/
def processLines (parse : List Char → Option ChatStreamChunk) :
    List (List Char) → List ChatStreamChunk × Bool
  | [] => ([], false)
  | line :: rest =>
    if sseDataHead.isPrefixOf line then
      if (trimText (line.drop 6)).isEmpty then processLines parse rest
      else
        match parse (trimText (line.drop 6)) with
        | some c =>
          if c.done then ([c], true)
          else ((processLines parse rest).1.cons c, (processLines parse rest).2)
        | none => processLines parse rest
    else processLines parse rest

/-- The outer `while (true)` read loop of `chatStream`: each `reader.read()`
result is appended to the buffer, complete lines are processed, and the
loop ends when the byte stream ends or a `done` chunk was yielded. -/
def chatStreamLoop (parse : List Char → Option ChatStreamChunk) :
    List (List Char) → List Char → List ChatStreamChunk
  | [], _buffer => []
  | r :: rs, buffer =>
    let parts := splitLines (buffer ++ r)
    let p := processLines parse parts.1
    if p.2 then p.1 else p.1 ++ chatStreamLoop parse rs parts.2

/-- The full sequence of chunks yielded by `chatStream` for a given decoded
byte stream `reads` (the successive `reader.read()` results). -/
def chatStream (parse : List Char → Option ChatStreamChunk) (reads : List (List Char)) :
    List ChatStreamChunk :=
  chatStreamLoop parse reads []

/-- A list of newline-free lines rendered as the SSE text that encodes
them: each line followed by a `"\n"`. -/
def joinLines (ls : List (List Char)) : List Char :=
  (ls.map (fun l => l ++ ['\n'])).flatten

/-- JavaScript truthiness of `chunk.error` as tested by the chat page:
`undefined` and the empty string are falsy. -/
def chunkHasError (c : ChatStreamChunk) : Bool :=
  match c.error with
  | some e => !e.isEmpty
  | none => false

/-- The `for await (const chunk of stream)` loop of `handleSend`
(client/app/chat/page.tsx): chunks are consumed in order and the loop
breaks at the first chunk whose `error` is truthy, so that chunk is the
last one processed. -/
def consumedChunks : List ChatStreamChunk → List ChatStreamChunk
  | [] => []
  | c :: rest => if chunkHasError c then [c] else c :: consumedChunks rest

/-! ## Zustand store actions (client/lib/store.ts) -/

/-- The full client store state. -/
structure LearningStoreState where
  currentDocument : Option DocumentInfo
  flashcards : List Flashcard
  quizQuestions : List QuizQuestion
  chatHistory : List ChatMessage
  deriving DecidableEq

/-- Action `addChatMessage`: appends a message to the chat history. -/
def addChatMessage (msg : ChatMessage) (st : LearningStoreState) : LearningStoreState :=
  { st with chatHistory := st.chatHistory ++ [msg] }

/-- The backwards `for` loop of `updateLastAssistantMessage` viewed from the
end of the array: walking the reversed history, the first message whose
role is `assistant` gets its `content` replaced and the loop breaks. -/
def updateFirstAssistantRev (content : String) : List ChatMessage → List ChatMessage
  | [] => []
  | m :: rest =>
    if m.role = Role.assistant then { m with content := content } :: rest
    else m :: updateFirstAssistantRev content rest

/-- Action `updateLastAssistantMessage(content)`: copies the history, replaces the
content of the most recent assistant message (if any), leaves everything
else as it was. -/
def updateLastAssistantMessage (content : String) (st : LearningStoreState) :
    LearningStoreState :=
  { st with chatHistory := (updateFirstAssistantRev content st.chatHistory.reverse).reverse }

/-! ## Chat page send handler `handleSend` (client/app/chat/page.tsx) -/

/-- The component state read by `handleSend`. -/
structure ChatPageState where
  input : String
  isStreaming : Bool
  currentDocument : Option DocumentInfo
  chatHistory : List ChatMessage
  deriving DecidableEq

/-- The body of the POST `/chat` request built by `chatStream` in
client/lib/api.ts: `history.map((m) => ({ role: m.role, content: m.content }))`. -/
structure ChatRequestBody where
  document_id : String
  message : String
  history : List (Role × String)
  deriving DecidableEq

/-- Function `handleSend` up to the point the request is issued: the guard
`!input.trim() || isStreaming || !currentDocument` aborts; otherwise the
history is snapshotted before anything is appended, the trimmed user
message and an empty assistant placeholder are appended to the store, and
the request carries the snapshot (mapped to role/content pairs by
`chatStream` in api.ts).  Returns the request body and the page state
after the two appends. -/
def handleSend (now : Nat) (st : ChatPageState) : Option (ChatRequestBody × ChatPageState) :=
  if (trimText st.input.data).isEmpty || st.isStreaming then none
  else
    match st.currentDocument with
    | none => none
    | some doc =>
      let userMessage : ChatMessage := ⟨Role.user, trimString st.input, some now⟩
      let historySnapshot := st.chatHistory
      let assistantPlaceholder : ChatMessage := ⟨Role.assistant, "", some now⟩
      some
        (⟨doc.id, userMessage.content,
            historySnapshot.map (fun m => (m.role, m.content))⟩,
          { st with
              input := ""
              isStreaming := true
              chatHistory := st.chatHistory ++ [userMessage, assistantPlaceholder] })

/-! ## Provider rotation engine

The engine lives in the backend (`server/utils/error_helpers.py`), which is
not among the supplied files; it is modelled from the specification
(§4.3): transient failures are retried on the same candidate up to a
per-candidate retry ceiling, permanent failures advance immediately, and
when no candidate remains the engine is exhausted and surfaces
`AllProvidersFailed` with the failure reason of each attempted candidate
in attempt order. -/

/-- A `(provider, model)` pair; priority rank is the position in the
candidate list. -/
structure Candidate where
  provider : String
  model : String
  deriving DecidableEq

/-- Classification of one attempt's response. -/
inductive AttemptOutcome where
  | success (result : String)
  | transient (reason : String)
  | permanent (reason : String)
  deriving DecidableEq

/-- Whether an attempt outcome is a success. -/
def AttemptOutcome.isSuccess : AttemptOutcome → Bool
  | .success _ => true
  | _ => false

/-- Outcome of driving one candidate to completion. -/
inductive CandidateResult where
  | ok (result : String)
  | failed (reason : String)
  deriving DecidableEq

/-- Modelled from the spec: attempts on one candidate.  `outcome n` is the
classified response of that candidate's attempt number `n`; a transient
failure is retried while retry budget remains, a permanent failure (or an
exhausted budget) makes the candidate fail with the last reason. -/
def tryCandidate (outcome : Nat → AttemptOutcome) : Nat → Nat → CandidateResult
  | fuel, attempt =>
    match outcome attempt with
    | .success r => .ok r
    | .permanent reason => .failed reason
    | .transient reason =>
      match fuel with
      | 0 => .failed reason
      | fuel + 1 => tryCandidate outcome fuel (attempt + 1)

/-- One entry of the `AllProvidersFailed` diagnostic payload. -/
structure CandidateFailure where
  candidate : Candidate
  reason : String
  deriving DecidableEq

/-- Terminal result of the rotation engine. -/
inductive RotationResult where
  | succeeded (result : String) (candidate : Candidate)
  | allProvidersFailed (failures : List CandidateFailure)
  deriving DecidableEq

/-- Modelled from the spec: the rotation over the ordered candidate list,
accumulating one failure entry per failed candidate in attempt order;
`Exhausted` surfaces `AllProvidersFailed` with the accumulated entries. -/
def rotate (outcome : Candidate → Nat → AttemptOutcome) (retryCeiling : Nat) :
    List Candidate → List CandidateFailure → RotationResult
  | [], failures => .allProvidersFailed failures
  | c :: cs, failures =>
    match tryCandidate (outcome c) retryCeiling 0 with
    | .ok r => .succeeded r c
    | .failed reason => rotate outcome retryCeiling cs (failures ++ [⟨c, reason⟩])

/-- The engine's entry point: rotation starting with no recorded failures. -/
def runRotation (outcome : Candidate → Nat → AttemptOutcome) (retryCeiling : Nat)
    (candidates : List Candidate) : RotationResult :=
  rotate outcome retryCeiling candidates []

/-! ## Quiz output parser

The parser lives in the backend quiz route, which is not among the
supplied files; it is modelled from the specification (§4.4): each
question requires exactly four labeled options A–D, exactly one of which
matches `correct_answer`, plus an explanation string, and any question
failing this shape is rejected. -/

/-- A raw quiz question as found in model output: fields may be missing,
options are an arbitrary labelled collection. -/
structure RawQuizQuestion where
  question : Option String
  options : List (String × String)
  correct_answer : Option String
  explanation : Option String

/-- The label naming an `AnswerKey`. -/
def labelOfKey : AnswerKey → String
  | .A => "A"
  | .B => "B"
  | .C => "C"
  | .D => "D"

/-- The `AnswerKey` named by a label, if any. -/
def keyOfLabel (s : String) : Option AnswerKey :=
  if s = "A" then some .A
  else if s = "B" then some .B
  else if s = "C" then some .C
  else if s = "D" then some .D
  else none

/-- First value bound to a label among the raw options. -/
def lookupOption (opts : List (String × String)) (label : String) : Option String :=
  (opts.find? (fun p => p.1 = label)).map (fun p => p.2)

/-- Modelled from the spec: the backend quiz output parser.  Accepts a raw
question only when the question text, `correct_answer` and explanation are
present, `correct_answer` is one of the four labels A–D, and the options
carry exactly those four labels, each bound to a non-empty string. -/
def parseQuizQuestion (raw : RawQuizQuestion) : Option QuizQuestion :=
  match raw.question, raw.correct_answer, raw.explanation with
  | some qt, some ca, some ex =>
    match keyOfLabel ca with
    | none => none
    | some key =>
      if raw.options.length = 4 then
        match lookupOption raw.options "A", lookupOption raw.options "B",
            lookupOption raw.options "C", lookupOption raw.options "D" with
        | some a, some b, some c, some d =>
          if a.isEmpty || b.isEmpty || c.isEmpty || d.isEmpty then none
          else some ⟨qt, ⟨a, b, c, d⟩, key, ex⟩
        | _, _, _, _ => none
      else none
  | _, _, _ => none

/-! ## Concrete inputs used to instantiate the theorems -/

/-- A concrete instantiation of the external distance operator: squared
difference of the leading coordinates. -/
def exDist : List ℚ → List ℚ → ℚ :=
  fun v w => (v.headD 0 - w.headD 0) * (v.headD 0 - w.headD 0)

/-- A chunk of document 1. -/
def exRow1 : ChunkRow := ⟨1, 1, "alpha", [0], 0⟩

/-- A second chunk of document 1. -/
def exRow2 : ChunkRow := ⟨2, 1, "beta", [2], 1⟩

/-- A chunk of document 2. -/
def exRow3 : ChunkRow := ⟨3, 2, "gamma", [1], 0⟩

/-- A store holding chunks of two distinct documents. -/
def exStore : List ChunkRow := [exRow1, exRow2, exRow3]

/-- The embedding stored at ingestion, of the schema's declared
dimensionality. -/
def exEmbedding : List ℚ := List.replicate vectorDim 0

/-- A chunk handed to the write path. -/
def exItem : UpsertItem := ⟨1, 0, "alpha", exEmbedding⟩

/-- A store history: one document ingested. -/
def exOps : List StoreOp := [.upsert 1 [exItem]]

/-- The row the history above writes. -/
def exRow768 : ChunkRow := ⟨1, 1, "alpha", exEmbedding, 0⟩

/-- A user chat message. -/
def exMsgU1 : ChatMessage := ⟨Role.user, "hi", some 1⟩

/-- An assistant chat message, the most recent assistant one in `exHist`. -/
def exMsgA : ChatMessage := ⟨Role.assistant, "old", some 2⟩

/-- A later user chat message. -/
def exMsgU2 : ChatMessage := ⟨Role.user, "more", some 3⟩

/-- A chat history whose most recent assistant message sits between two
user messages. -/
def exHist : List ChatMessage := [exMsgU1, exMsgA, exMsgU2]

/-- A store state with the history above. -/
def exStState : LearningStoreState := ⟨none, [], [], exHist⟩

/-- A store state whose history has no assistant message. -/
def exStNoAssistant : LearningStoreState := ⟨none, [], [], [exMsgU1]⟩

/-- The active document of the example chat page. -/
def exDoc : DocumentInfo := ⟨"d1", "Title", SourceType.youtube⟩

/-- First rotation candidate. -/
def exCandidate1 : Candidate := ⟨"openrouter", "qwen-2.5-72b"⟩

/-- Second rotation candidate. -/
def exCandidate2 : Candidate := ⟨"gemini", "gemini-2.0-flash"⟩

/-- A two-entry candidate list. -/
def exCandidates : List Candidate := [exCandidate1, exCandidate2]

/-- An outcome assignment under which every candidate always fails: the
first transiently (rate-limited), the second permanently (auth failure). -/
def exOutcome : Candidate → Nat → AttemptOutcome :=
  fun c _n => if c.provider = "gemini" then .permanent "auth" else .transient "429"

/-- A chat page state about to send a message. -/
def exPage : ChatPageState := ⟨" hello ", false, some exDoc, [exMsgU1, exMsgA]⟩

/-- The JSON text of an SSE payload carrying an error with `done: false`. -/
def exJsonErr : String :=
  "\x7b\"content\": \"\", \"done\": false, \"error\": \"boom\"\x7d"

/-- The JSON text of an ordinary content payload. -/
def exJsonX : String :=
  "\x7b\"content\": \"x\", \"done\": false\x7d"

/-- The JSON text of a terminal payload. -/
def exJsonDone : String :=
  "\x7b\"content\": \"\", \"done\": true\x7d"

/-- The chunk `JSON.parse` yields for `exJsonErr`. -/
def exErrChunk : ChatStreamChunk := ⟨"", false, some "boom"⟩

/-- The chunk `JSON.parse` yields for `exJsonX`. -/
def exXChunk : ChatStreamChunk := ⟨"x", false, none⟩

/-- The chunk `JSON.parse` yields for `exJsonDone`. -/
def exDoneChunk : ChatStreamChunk := ⟨"", true, none⟩

/-- A concrete instantiation of the `JSON.parse` parameter, agreeing with
`JSON.parse` on the three payloads above and failing elsewhere. -/
def exParse : List Char → Option ChatStreamChunk :=
  fun s =>
    if s = exJsonErr.data then some exErrChunk
    else if s = exJsonX.data then some exXChunk
    else if s = exJsonDone.data then some exDoneChunk
    else none

/-- SSE text whose first data line carries an error payload with
`done: false` and whose second carries an ordinary payload; the byte
stream then ends without any `done: true` line. -/
def exSseErrText : String :=
  "data: " ++ exJsonErr ++ "\n" ++ "data: " ++ exJsonX ++ "\n"

/-- SSE text carrying one content payload and then a terminal payload. -/
def exSseOkText : String :=
  "data: " ++ exJsonX ++ "\n" ++ "data: " ++ exJsonDone ++ "\n"

/-- An SSE data line with the ordinary payload. -/
def exLineX : List Char := sseDataHead ++ exJsonX.data

/-- An SSE data line with the terminal payload. -/
def exLineDone : List Char := sseDataHead ++ exJsonDone.data

/-- A payload no JSON parser accepts. -/
def exBadPayload : List Char := ['o', 'o', 'p', 's', '%']

/-- A well-shaped raw quiz question with correct answer B. -/
def exRawGood : RawQuizQuestion :=
  ⟨some "Q?", [("A", "one"), ("B", "two"), ("C", "three"), ("D", "four")],
    some "B", some "because"⟩

/-- The parsed form of `exRawGood`. -/
def exQuizQ : QuizQuestion :=
  ⟨"Q?", ⟨"one", "two", "three", "four"⟩, AnswerKey.B, "because"⟩

/-- A raw quiz question whose `correct_answer` key is absent from the
options. -/
def exRawBad : RawQuizQuestion :=
  ⟨some "Q?", [("A", "one"), ("C", "three"), ("D", "four"), ("E", "five")],
    some "B", some "because"⟩

/-! ## Theorems -/

/-- A store operation maps a store of 768-dimensional embeddings to a store
of 768-dimensional embeddings. -/
theorem applyOp_dim {st : List ChunkRow} {op : StoreOp} {st' : List ChunkRow}
    (h : applyOp st op = some st')
    (hst : ∀ r ∈ st, r.embedding.length = vectorDim) :
    ∀ r ∈ st', r.embedding.length = vectorDim := by
  intro r hr
  cases op with
  | upsert doc_id items =>
    simp only [applyOp] at h
    split at h
    case isTrue hall =>
      obtain rfl : st ++ _ = st' := Option.some.inj h
      rcases List.mem_append.mp hr with hl | hmap
      · exact hst r hl
      · obtain ⟨it, hit, rfl⟩ := List.mem_map.mp hmap
        have := List.all_eq_true.mp hall it hit
        simpa using this
    case isFalse => exact absurd h (by simp)
  | deleteDoc doc_id =>
    simp only [applyOp] at h
    obtain rfl : st.filter _ = st' := Option.some.inj h
    exact hst r (List.mem_filter.mp hr).1

/-- Any store reachable from a given invariant-satisfying store keeps the
dimensionality invariant. -/
theorem foldlM_applyOp_dim (ops : List StoreOp) :
    ∀ st0 st : List ChunkRow, (∀ r ∈ st0, r.embedding.length = vectorDim) →
      List.foldlM applyOp st0 ops = some st →
      ∀ r ∈ st, r.embedding.length = vectorDim := by
  induction ops with
  | nil =>
    intro st0 st h0 hrun
    simp only [List.foldlM] at hrun
    obtain rfl : st0 = st := Option.some.inj hrun
    exact h0
  | cons op ops ih =>
    intro st0 st h0 hrun
    simp only [List.foldlM] at hrun
    cases hop : applyOp st0 op with
    | none => rw [hop] at hrun; exact absurd hrun (by simp)
    | some st1 =>
      rw [hop] at hrun
      exact ih st1 st (applyOp_dim hop h0) hrun

/-- C7: every chunk in a store reachable by the repository's operations has
an embedding of dimensionality 768; a written row is never mutated by a
later operation — it either survives verbatim or is removed by the cascade
of its own document's deletion — and the `match_chunks` RPC rejects a query
embedding of any other dimensionality. -/
theorem C7_embedding_dim_invariant :
    (∀ ops st, runOps ops = some st → ∀ r ∈ st, r.embedding.length = vectorDim) ∧
    (∀ st op st', applyOp st op = some st' → ∀ r ∈ st,
        r ∈ st' ∨ ∃ d, op = StoreOp.deleteDoc d ∧ r.document_id = d) ∧
    (∀ dist store q doc k, q.length ≠ vectorDim →
        match_chunks_rpc dist store q doc k = none) := by
  refine ⟨?_, ?_, ?_⟩
  · intro ops st hrun
    exact foldlM_applyOp_dim ops [] st (by simp) hrun
  · intro st op st' h r hr
    cases op with
    | upsert doc_id items =>
      simp only [applyOp] at h
      split at h
      case isTrue =>
        obtain rfl : st ++ _ = st' := Option.some.inj h
        exact Or.inl (List.mem_append_left _ hr)
      case isFalse => exact absurd h (by simp)
    | deleteDoc d =>
      simp only [applyOp] at h
      obtain rfl : st.filter _ = st' := Option.some.inj h
      by_cases hd : r.document_id = d
      · exact Or.inr ⟨d, rfl, hd⟩
      · exact Or.inl (List.mem_filter.mpr ⟨hr, by simpa using hd⟩)
  · intro dist store q doc k hq
    simp [match_chunks_rpc, hq]

/-- Instantiation of C7: ingesting one 768-dimensional chunk yields a store
whose single row satisfies the invariant, and a 1-dimensional query is
rejected at the RPC boundary. -/
theorem C7_embedding_dim_invariant_witness :
    (runOps exOps = some [exRow768] ∧ exRow768.embedding.length = vectorDim) ∧
    (([(0 : ℚ)].length ≠ vectorDim) ∧ match_chunks_rpc exDist exStore [0] 1 5 = none) := by
  have hrun : runOps exOps = some [exRow768] := by
    simp [runOps, exOps, applyOp, exItem, exEmbedding, exRow768, List.foldlM]
  refine ⟨⟨hrun, C7_embedding_dim_invariant.1 exOps [exRow768] hrun exRow768 (by simp)⟩,
    by decide, C7_embedding_dim_invariant.2.2 exDist exStore [0] 1 5 (by decide)⟩

/-- Walking a history segment with no assistant message, the update loop
changes nothing. -/
theorem updateFirstAssistantRev_no_assistant {c : String} {l : List ChatMessage}
    (h : ∀ m ∈ l, m.role ≠ Role.assistant) : updateFirstAssistantRev c l = l := by
  induction l with
  | nil => rfl
  | cons m rest ih =>
    simp only [updateFirstAssistantRev]
    rw [if_neg (h m (List.mem_cons_self _ _)),
      ih (fun m' hm' => h m' (List.mem_cons_of_mem _ hm'))]

/-- The update loop passes unchanged over a leading segment with no
assistant message. -/
theorem updateFirstAssistantRev_append {c : String} {l1 l2 : List ChatMessage}
    (h : ∀ m ∈ l1, m.role ≠ Role.assistant) :
    updateFirstAssistantRev c (l1 ++ l2) = l1 ++ updateFirstAssistantRev c l2 := by
  induction l1 with
  | nil => rfl
  | cons m rest ih =>
    simp only [List.cons_append, updateFirstAssistantRev, List.append_eq]
    rw [if_neg (h m (List.mem_cons_self _ _)),
      ih (fun m' hm' => h m' (List.mem_cons_of_mem _ hm'))]

/-- C9: `updateLastAssistantMessage(content)` leaves `currentDocument`,
`flashcards` and `quizQuestions` unchanged; when the history holds no
assistant message it leaves the history unchanged; and when the most
recent assistant message is `m` (so `post` holds no assistant message) it
replaces exactly `m`'s content, keeping `m`'s role and timestamp and every
other message as they were. -/
theorem C9_updateLastAssistantMessage_frame (st : LearningStoreState) (c : String) :
    (updateLastAssistantMessage c st).currentDocument = st.currentDocument ∧
    (updateLastAssistantMessage c st).flashcards = st.flashcards ∧
    (updateLastAssistantMessage c st).quizQuestions = st.quizQuestions ∧
    ((∀ m ∈ st.chatHistory, m.role ≠ Role.assistant) →
      (updateLastAssistantMessage c st).chatHistory = st.chatHistory) ∧
    (∀ pre m post, st.chatHistory = pre ++ m :: post → m.role = Role.assistant →
      (∀ m' ∈ post, m'.role ≠ Role.assistant) →
      (updateLastAssistantMessage c st).chatHistory =
        pre ++ { m with content := c } :: post) := by
  refine ⟨rfl, rfl, rfl, ?_, ?_⟩
  · intro h
    simp only [updateLastAssistantMessage]
    rw [updateFirstAssistantRev_no_assistant
      (fun m hm => h m (List.mem_reverse.mp hm))]
    exact List.reverse_reverse _
  · intro pre m post hhist hrole hpost
    simp only [updateLastAssistantMessage, hhist]
    have hrev : (pre ++ m :: post).reverse = post.reverse ++ (m :: pre.reverse) := by
      simp
    rw [hrev,
      updateFirstAssistantRev_append (fun m' hm' => hpost m' (List.mem_reverse.mp hm'))]
    simp only [updateFirstAssistantRev, if_pos hrole]
    simp

/-- Instantiation of C9: replacing the most recent assistant content in a
concrete history, and the no-assistant history left untouched. -/
theorem C9_updateLastAssistantMessage_frame_witness :
    (exStState.chatHistory = [exMsgU1] ++ exMsgA :: [exMsgU2] ∧
      exMsgA.role = Role.assistant ∧
      (∀ m' ∈ [exMsgU2], m'.role ≠ Role.assistant) ∧
      (updateLastAssistantMessage "new" exStState).chatHistory =
        [exMsgU1] ++ { exMsgA with content := "new" } :: [exMsgU2]) ∧
    ((∀ m ∈ exStNoAssistant.chatHistory, m.role ≠ Role.assistant) ∧
      (updateLastAssistantMessage "new" exStNoAssistant).chatHistory =
        exStNoAssistant.chatHistory) :=
  ⟨⟨rfl, rfl, by decide,
      (C9_updateLastAssistantMessage_frame exStState "new").2.2.2.2
        [exMsgU1] exMsgA [exMsgU2] rfl rfl (by decide)⟩,
    ⟨by decide,
      (C9_updateLastAssistantMessage_frame exStNoAssistant "new").2.2.2.1 (by decide)⟩⟩

/-- C3: when `handleSend` issues a request, the history it carries is
exactly the store's history from before this turn, mapped to role/content
pairs oldest-first — the just-typed user message and the assistant
placeholder are appended to the store afterwards and are not part of it. -/
theorem C3_history_excludes_inflight (now : Nat) (st : ChatPageState)
    (req : ChatRequestBody) (st' : ChatPageState)
    (h : handleSend now st = some (req, st')) :
    req.history = st.chatHistory.map (fun m => (m.role, m.content)) ∧
    req.history.length = st.chatHistory.length ∧
    st'.chatHistory = st.chatHistory ++
      [⟨Role.user, trimString st.input, some now⟩, ⟨Role.assistant, "", some now⟩] ∧
    req.message = trimString st.input := by
  simp only [handleSend] at h
  split at h
  · exact absurd h (by simp)
  · cases hdoc : st.currentDocument with
    | none => rw [hdoc] at h; exact absurd h (by simp)
    | some doc =>
      rw [hdoc] at h
      obtain ⟨hreq, hst⟩ := Prod.mk.injEq .. ▸ Option.some.inj h
      subst hreq hst
      exact ⟨rfl, by simp, rfl, rfl⟩

/-- Instantiation of C3 at a concrete page state with two prior turns. -/
theorem C3_history_excludes_inflight_witness :
    handleSend 5 exPage =
      some (⟨"d1", "hello", [(Role.user, "hi"), (Role.assistant, "old")]⟩,
        ⟨"", true, some exDoc,
          [exMsgU1, exMsgA, ⟨Role.user, "hello", some 5⟩, ⟨Role.assistant, "", some 5⟩]⟩) ∧
    [(Role.user, "hi"), (Role.assistant, "old")] =
      exPage.chatHistory.map (fun m => (m.role, m.content)) := by
  have h : handleSend 5 exPage =
      some (⟨"d1", "hello", [(Role.user, "hi"), (Role.assistant, "old")]⟩,
        ⟨"", true, some exDoc,
          [exMsgU1, exMsgA, ⟨Role.user, "hello", some 5⟩, ⟨Role.assistant, "", some 5⟩]⟩) := by
    decide
  exact ⟨h, (C3_history_excludes_inflight 5 exPage _ _ h).1.symm ▸ rfl⟩

/-- Driving a candidate that never succeeds ends in a failure, whatever the
retry budget and starting attempt number. -/
theorem tryCandidate_failed (outcome : Nat → AttemptOutcome)
    (h : ∀ n, (outcome n).isSuccess = false) :
    ∀ fuel attempt, ∃ reason, tryCandidate outcome fuel attempt = .failed reason := by
  intro fuel
  induction fuel with
  | zero =>
    intro attempt
    cases houtcome : outcome attempt with
    | success r =>
      have hs := h attempt
      rw [houtcome] at hs
      exact absurd hs (by simp [AttemptOutcome.isSuccess])
    | transient reason => exact ⟨reason, by simp [tryCandidate, houtcome]⟩
    | permanent reason => exact ⟨reason, by simp [tryCandidate, houtcome]⟩
  | succ fuel ih =>
    intro attempt
    cases houtcome : outcome attempt with
    | success r =>
      have hs := h attempt
      rw [houtcome] at hs
      exact absurd hs (by simp [AttemptOutcome.isSuccess])
    | transient reason =>
      obtain ⟨reason', hr⟩ := ih (attempt + 1)
      exact ⟨reason', by simp [tryCandidate, houtcome, hr]⟩
    | permanent reason => exact ⟨reason, by simp [tryCandidate, houtcome]⟩

/-- Rotation over an all-failing candidate list appends one failure entry
per candidate, in list order, to the accumulated diagnostics. -/
theorem rotate_all_failed (outcome : Candidate → Nat → AttemptOutcome) (ceiling : Nat)
    (h : ∀ c n, (outcome c n).isSuccess = false) :
    ∀ candidates acc, ∃ failures,
      rotate outcome ceiling candidates acc = .allProvidersFailed (acc ++ failures) ∧
      failures.map CandidateFailure.candidate = candidates := by
  intro candidates
  induction candidates with
  | nil => exact fun acc => ⟨[], by simp [rotate]⟩
  | cons c cs ih =>
    intro acc
    obtain ⟨reason, hr⟩ := tryCandidate_failed (outcome c) (h c) ceiling 0
    obtain ⟨fs, hfs, hmap⟩ := ih (acc ++ [⟨c, reason⟩])
    refine ⟨⟨c, reason⟩ :: fs, ?_, by simp [hmap]⟩
    simp only [rotate, hr, hfs]
    simp

/-- C6: for every candidate list in which every candidate always fails (any
mix of transient and permanent failures), the rotation engine terminates
exhausted with an `AllProvidersFailed` error carrying exactly one failure
entry per candidate, in attempt order. -/
theorem C6_all_fail_exhausts (outcome : Candidate → Nat → AttemptOutcome)
    (retryCeiling : Nat) (candidates : List Candidate)
    (h : ∀ c n, (outcome c n).isSuccess = false) :
    ∃ failures, runRotation outcome retryCeiling candidates = .allProvidersFailed failures ∧
      failures.length = candidates.length ∧
      failures.map CandidateFailure.candidate = candidates := by
  obtain ⟨fs, hfs, hmap⟩ := rotate_all_failed outcome retryCeiling h candidates []
  exact ⟨fs, by simpa using hfs, by rw [← hmap, List.length_map], hmap⟩

/-- Instantiation of C6: two always-failing candidates produce exactly the
two diagnostics, in attempt order. -/
theorem C6_all_fail_exhausts_witness :
    (∀ c n, (exOutcome c n).isSuccess = false) ∧
    runRotation exOutcome 2 exCandidates =
      .allProvidersFailed [⟨exCandidate1, "429"⟩, ⟨exCandidate2, "auth"⟩] ∧
    ∃ failures, runRotation exOutcome 2 exCandidates = .allProvidersFailed failures ∧
      failures.length = exCandidates.length ∧
      failures.map CandidateFailure.candidate = exCandidates := by
  have hfail : ∀ c n, (exOutcome c n).isSuccess = false := by
    intro c n
    simp only [exOutcome]
    split <;> rfl
  exact ⟨hfail, by decide, C6_all_fail_exhausts exOutcome 2 exCandidates hfail⟩

/-- A string whose emptiness test is false is not the empty string. -/
theorem ne_empty_of_isEmpty_false {s : String} (h : s.isEmpty = false) : s ≠ "" :=
  fun he => by subst he; exact absurd h (by decide)

/-- The only label mapped to an answer key is that key's own label. -/
theorem keyOfLabel_eq_some {s : String} {k : AnswerKey}
    (h : keyOfLabel s = some k) : s = labelOfKey k := by
  simp only [keyOfLabel] at h
  split at h
  case isTrue h1 => cases h; exact h1
  case isFalse =>
    split at h
    case isTrue h1 => cases h; exact h1
    case isFalse =>
      split at h
      case isTrue h1 => cases h; exact h1
      case isFalse =>
        split at h
        case isTrue h1 => cases h; exact h1
        case isFalse => cases h

/-- C8: every question accepted by the quiz parser has exactly four options
labeled A–D, each bound to a non-empty string, a `correct_answer` equal to
one of those labels, and an explanation; in particular a question with
`correct_answer = B` has a non-empty `options.B`.  Any raw question whose
`correct_answer` key is absent from its options is rejected. -/
theorem C8_quiz_parser_shape :
    (∀ raw q, parseQuizQuestion raw = some q →
      raw.options.length = 4 ∧
      lookupOption raw.options "A" = some q.options.A ∧
      lookupOption raw.options "B" = some q.options.B ∧
      lookupOption raw.options "C" = some q.options.C ∧
      lookupOption raw.options "D" = some q.options.D ∧
      q.options.A ≠ "" ∧ q.options.B ≠ "" ∧ q.options.C ≠ "" ∧ q.options.D ≠ "" ∧
      raw.correct_answer = some (labelOfKey q.correct_answer) ∧
      raw.question = some q.question ∧
      raw.explanation = some q.explanation ∧
      (q.correct_answer = AnswerKey.B → q.options.B ≠ "")) ∧
    (∀ raw ca, raw.correct_answer = some ca → lookupOption raw.options ca = none →
      parseQuizQuestion raw = none) := by
  constructor
  · intro raw q h
    cases hqt : raw.question with
    | none => simp [parseQuizQuestion, hqt] at h
    | some qt =>
    cases hca : raw.correct_answer with
    | none => simp [parseQuizQuestion, hqt, hca] at h
    | some ca =>
    cases hex : raw.explanation with
    | none => simp [parseQuizQuestion, hqt, hca, hex] at h
    | some ex =>
    cases hkey : keyOfLabel ca with
    | none => simp [parseQuizQuestion, hqt, hca, hex, hkey] at h
    | some key =>
    cases hA : lookupOption raw.options "A" with
    | none => simp [parseQuizQuestion, hqt, hca, hex, hkey, hA] at h
    | some a =>
    cases hB : lookupOption raw.options "B" with
    | none => simp [parseQuizQuestion, hqt, hca, hex, hkey, hA, hB] at h
    | some b =>
    cases hC : lookupOption raw.options "C" with
    | none => simp [parseQuizQuestion, hqt, hca, hex, hkey, hA, hB, hC] at h
    | some c =>
    cases hD : lookupOption raw.options "D" with
    | none => simp [parseQuizQuestion, hqt, hca, hex, hkey, hA, hB, hC, hD] at h
    | some d =>
    simp only [parseQuizQuestion, hqt, hca, hex, hkey, hA, hB, hC, hD] at h
    split at h
    case isFalse => simp at h
    case isTrue hlen =>
    split at h
    case isTrue => simp at h
    case isFalse hne =>
    obtain rfl : (⟨qt, ⟨a, b, c, d⟩, key, ex⟩ : QuizQuestion) = q := Option.some.inj h
    have hor : (a.isEmpty || b.isEmpty || c.isEmpty || d.isEmpty) = false := by
      cases hcase : a.isEmpty || b.isEmpty || c.isEmpty || d.isEmpty with
      | false => rfl
      | true => exact absurd hcase hne
    simp only [Bool.or_eq_false_iff] at hor
    exact ⟨hlen, rfl, rfl, rfl, rfl,
      ne_empty_of_isEmpty_false hor.1.1.1, ne_empty_of_isEmpty_false hor.1.1.2,
      ne_empty_of_isEmpty_false hor.1.2, ne_empty_of_isEmpty_false hor.2,
      congrArg some (keyOfLabel_eq_some hkey), rfl, rfl,
      fun _ => ne_empty_of_isEmpty_false hor.1.1.2⟩
  · intro raw ca hca hlook
    cases hqt : raw.question with
    | none => simp [parseQuizQuestion, hqt]
    | some qt =>
    cases hex : raw.explanation with
    | none => simp [parseQuizQuestion, hqt, hca, hex]
    | some ex =>
    cases hkey : keyOfLabel ca with
    | none => simp [parseQuizQuestion, hqt, hca, hex, hkey]
    | some key =>
    have hcalab := keyOfLabel_eq_some hkey
    rw [hcalab] at hlook
    by_cases hlen : raw.options.length = 4
    · cases key with
      | A =>
        simp [parseQuizQuestion, hqt, hca, hex, hkey, hlen, labelOfKey] at hlook ⊢
        simp [hlook]
      | B =>
        cases hA : lookupOption raw.options "A" <;>
          simp [parseQuizQuestion, hqt, hca, hex, hkey, hlen, labelOfKey, hA] at hlook ⊢ <;>
          simp [hlook]
      | C =>
        cases hA : lookupOption raw.options "A" <;>
          cases hB : lookupOption raw.options "B" <;>
          simp [parseQuizQuestion, hqt, hca, hex, hkey, hlen, labelOfKey, hA, hB] at hlook ⊢ <;>
          simp [hlook]
      | D =>
        cases hA : lookupOption raw.options "A" <;>
          cases hB : lookupOption raw.options "B" <;>
          cases hC : lookupOption raw.options "C" <;>
          simp [parseQuizQuestion, hqt, hca, hex, hkey, hlen, labelOfKey, hA, hB, hC]
            at hlook ⊢ <;>
          simp [hlook]
    · simp [parseQuizQuestion, hqt, hca, hex, hkey, hlen]

/-- Instantiation of C8: a well-shaped question with `correct_answer = B`
parses and carries a non-empty `options.B`; a question whose
`correct_answer` key is absent from its options is rejected. -/
theorem C8_quiz_parser_shape_witness :
    parseQuizQuestion exRawGood = some exQuizQ ∧
    lookupOption exRawGood.options "B" = some exQuizQ.options.B ∧
    exQuizQ.options.B ≠ "" ∧
    exRawBad.correct_answer = some "B" ∧
    lookupOption exRawBad.options "B" = none ∧
    parseQuizQuestion exRawBad = none := by
  have h1 : parseQuizQuestion exRawGood = some exQuizQ := by decide
  have h2 := C8_quiz_parser_shape.1 exRawGood exQuizQ h1
  have h3 := C8_quiz_parser_shape.2 exRawBad "B" rfl (by decide)
  exact ⟨h1, h2.2.2.1, h2.2.2.2.2.2.2.1, rfl, by decide, h3⟩

/-- Processing a concatenation of line lists: if the first part ends the
generator the second is never examined, otherwise outputs concatenate. -/
theorem processLines_append (parse : List Char → Option ChatStreamChunk)
    (l1 l2 : List (List Char)) :
    processLines parse (l1 ++ l2) =
      if (processLines parse l1).2 then processLines parse l1
      else ((processLines parse l1).1 ++ (processLines parse l2).1,
        (processLines parse l2).2) := by
  induction l1 with
  | nil => simp [processLines]
  | cons line rest ih =>
    by_cases h1 : sseDataHead.isPrefixOf line
    · by_cases h2 : (trimText (line.drop 6)).isEmpty
      · simpa [processLines, h1, h2] using ih
      · cases hp : parse (trimText (line.drop 6)) with
        | none => simpa [processLines, h1, h2, hp] using ih
        | some c =>
          by_cases h3 : c.done
          · simp [processLines, h1, h2, hp, h3]
          · cases hr : (processLines parse rest).2 with
            | false => simp [processLines, h1, h2, hp, h3, ih, hr]
            | true => simp [processLines, h1, h2, hp, h3, ih, hr]
    · simpa [processLines, h1] using ih

/-- A text with no newline splits into no complete line and itself as the
trailing buffer. -/
theorem splitLines_no_nl {s : List Char} (h : '\n' ∉ s) :
    splitLines s = ([], s) := by
  induction s with
  | nil => rfl
  | cons c cs ih =>
    have hc : ¬c = '\n' := fun hceq => h (List.mem_cons.mpr (Or.inl hceq.symm))
    have hcs : '\n' ∉ cs := fun hm => h (List.mem_cons_of_mem _ hm)
    simp [splitLines, hc, ih hcs]

/-- The trailing buffer produced by the splitter never contains a
newline. -/
theorem splitLines_buf_no_nl (s : List Char) : '\n' ∉ (splitLines s).2 := by
  induction s with
  | nil => simp [splitLines]
  | cons c cs ih =>
    by_cases hc : c = '\n'
    · simpa [splitLines, hc] using ih
    · cases hsp : splitLines cs with
      | mk ls buf =>
        rw [hsp] at ih
        cases ls with
        | nil =>
          simp only [splitLines, if_neg hc, hsp]
          intro hm
          rcases List.mem_cons.mp hm with heq | hmem
          · exact hc heq.symm
          · exact ih hmem
        | cons l ls' =>
          simp only [splitLines, if_neg hc, hsp]
          exact ih

/-- Splitting a concatenation: the first part's complete lines, then the
lines obtained from its trailing buffer glued to the second part. -/
theorem splitLines_append (a b : List Char) :
    splitLines (a ++ b) =
      ((splitLines a).1 ++ (splitLines ((splitLines a).2 ++ b)).1,
        (splitLines ((splitLines a).2 ++ b)).2) := by
  induction a with
  | nil => simp [splitLines]
  | cons c cs ih =>
    by_cases hc : c = '\n'
    · subst hc
      simp [splitLines, ih]
    · cases h1 : splitLines cs with
      | mk ls1 buf1 =>
        rw [h1] at ih
        cases ls1 with
        | nil =>
          cases h2 : splitLines (buf1 ++ b) with
          | mk ls2 buf2 =>
            cases ls2 with
            | nil => simp [splitLines, hc, h1, ih, h2]
            | cons l2 ls2' => simp [splitLines, hc, h1, ih, h2]
        | cons l ls' => simp [splitLines, hc, h1, ih]

/-- The read loop equals line processing of the whole decoded text: the
buffering is associative, and a `done` chunk stops both presentations. -/
theorem chatStreamLoop_eq (parse : List Char → Option ChatStreamChunk)
    (reads : List (List Char)) :
    ∀ buffer : List Char, '\n' ∉ buffer →
      chatStreamLoop parse reads buffer =
        (processLines parse (splitLines (buffer ++ reads.flatten)).1).1 := by
  induction reads with
  | nil =>
    intro buffer hb
    simp [chatStreamLoop, splitLines_no_nl hb, processLines]
  | cons r rs ih =>
    intro buffer hb
    have hassoc : buffer ++ (r :: rs).flatten = (buffer ++ r) ++ rs.flatten := by
      simp
    rw [hassoc, splitLines_append (buffer ++ r) rs.flatten, processLines_append]
    simp only [chatStreamLoop]
    rw [ih _ (splitLines_buf_no_nl (buffer ++ r))]
    cases hdone : (processLines parse (splitLines (buffer ++ r)).1).2 <;> simp [hdone]

/-- The chunks yielded by `chatStream` are the line-processing of the
decoded byte stream's complete lines. -/
theorem chatStream_eq (parse : List Char → Option ChatStreamChunk)
    (reads : List (List Char)) :
    chatStream parse reads = (processLines parse (splitLines reads.flatten).1).1 := by
  simpa [chatStream] using chatStreamLoop_eq parse reads [] (by simp)

/-- Shape of a line-processing run: either no `done` chunk was seen and no
yielded chunk has `done` set, or the output ends at the first chunk with
`done` set. -/
theorem processLines_shape (parse : List Char → Option ChatStreamChunk)
    (lines : List (List Char)) :
    ((processLines parse lines).2 = false ∧
      ∀ c ∈ (processLines parse lines).1, c.done = false) ∨
    ∃ pre final, (processLines parse lines).1 = pre ++ [final] ∧
      (∀ c ∈ pre, c.done = false) ∧ final.done = true := by
  induction lines with
  | nil => left; simp [processLines]
  | cons line rest ih =>
    by_cases h1 : sseDataHead.isPrefixOf line
    · by_cases h2 : (trimText (line.drop 6)).isEmpty
      · simpa [processLines, h1, h2] using ih
      · cases hp : parse (trimText (line.drop 6)) with
        | none => simpa [processLines, h1, h2, hp] using ih
        | some c =>
          by_cases h3 : c.done
          · right
            exact ⟨[], c, by simp [processLines, h1, h2, hp, h3], by simp, by simpa using h3⟩
          · have hred : processLines parse (line :: rest) =
                (c :: (processLines parse rest).1, (processLines parse rest).2) := by
              simp [processLines, h1, h2, hp, h3]
            rcases ih with ⟨hf, hall⟩ | ⟨pre, final, heq, hpre, hlast⟩
            · left
              rw [hred]
              refine ⟨hf, ?_⟩
              intro c' hc'
              rcases List.mem_cons.mp hc' with rfl | hmem
              · simpa using h3
              · exact hall c' hmem
            · right
              rw [hred, heq]
              refine ⟨c :: pre, final, by simp, ?_, hlast⟩
              intro c' hc'
              rcases List.mem_cons.mp hc' with rfl | hmem
              · simpa using h3
              · exact hpre c' hmem
    · simpa [processLines, h1] using ih

/-- The chat page consumer never processes a chunk after one whose `error`
is truthy: such a chunk is the last one consumed. -/
theorem consumedChunks_error_last (chunks : List ChatStreamChunk) :
    ∀ c ∈ (consumedChunks chunks).dropLast, chunkHasError c = false := by
  induction chunks with
  | nil => simp [consumedChunks]
  | cons c rest ih =>
    cases h : chunkHasError c with
    | true => simp [consumedChunks, h]
    | false =>
      cases hr : consumedChunks rest with
      | nil => simp [consumedChunks, h, hr]
      | cons y ys =>
        rw [hr] at ih
        simp only [consumedChunks, h, Bool.false_eq_true, if_false, hr]
        rw [List.dropLast_cons_of_ne_nil (by simp)]
        intro c' hc'
        rcases List.mem_cons.mp hc' with rfl | hmem
        · exact h
        · exact ih c' hmem

/-- C2 (amended): for every finite decoded byte stream and any parse
behavior, the chunk sequence yielded by `chatStream` is a finite list in
which every element but possibly the last has `done = false` — so at most
one `done = true` element occurs and, when it occurs, it is last and ends
the sequence.  The stream may end without a terminal `done = true` element,
and an element carrying an error does not end the generator's sequence by
itself; it is the chat page consumer that stops at the first truthy-error
element, which is therefore the last one it processes. -/
theorem C2_done_terminal (parse : List Char → Option ChatStreamChunk)
    (reads : List (List Char)) :
    (∀ c ∈ (chatStream parse reads).dropLast, c.done = false) ∧
    (∀ chunks : List ChatStreamChunk,
      ∀ c ∈ (consumedChunks chunks).dropLast, chunkHasError c = false) := by
  refine ⟨?_, fun chunks => consumedChunks_error_last chunks⟩
  rw [chatStream_eq]
  rcases processLines_shape parse (splitLines reads.flatten).1 with
    ⟨_, hall⟩ | ⟨pre, final, heq, hpre, _⟩
  · exact fun c hc => hall c (List.Sublist.mem hc (List.dropLast_sublist _))
  · rw [heq, List.dropLast_concat]
    exact hpre

/-- Instantiation of C2 at a concrete two-payload stream ending with a
terminal chunk. -/
theorem C2_done_terminal_witness :
    chatStream exParse [exSseOkText.data] = [exXChunk, exDoneChunk] ∧
    exXChunk ∈ (chatStream exParse [exSseOkText.data]).dropLast ∧
    exXChunk.done = false ∧
    exXChunk ∈ (consumedChunks [exXChunk, exErrChunk]).dropLast ∧
    chunkHasError exXChunk = false := by
  have h1 : chatStream exParse [exSseOkText.data] = [exXChunk, exDoneChunk] := by decide
  have hmem : exXChunk ∈ (chatStream exParse [exSseOkText.data]).dropLast := by
    rw [h1]; decide
  have hmem2 : exXChunk ∈ (consumedChunks [exXChunk, exErrChunk]).dropLast := by decide
  exact ⟨h1, hmem, (C2_done_terminal exParse [exSseOkText.data]).1 exXChunk hmem,
    hmem2, (C2_done_terminal exParse [exSseOkText.data]).2 [exXChunk, exErrChunk]
      exXChunk hmem2⟩

/-- C2 (counterexample to the claim as stated): on a byte stream whose
first data line carries an error payload with `done: false` and whose
second carries an ordinary payload, `chatStream` yields a further element
after the element carrying the error, and its sequence ends without any
`done = true` element — so the error element does not terminate the
generator's sequence and the sequence is not terminated by a `done = true`
element. -/
theorem C2_counterexample_stream :
    chatStream exParse [exSseErrText.data] = [exErrChunk, exXChunk] ∧
    exErrChunk.error = some "boom" ∧
    exXChunk.done = false ∧ exErrChunk.done = false := by
  exact ⟨by decide, rfl, rfl, rfl⟩

/-- Inserting a data line whose payload the parser rejects changes nothing:
line processing of the surrounding lines is unchanged. -/
theorem processLines_insert_malformed (parse : List Char → Option ChatStreamChunk)
    (s : List Char) (hs : parse (trimText s) = none) :
    ∀ pre post : List (List Char),
      processLines parse (pre ++ (sseDataHead ++ s) :: post) =
        processLines parse (pre ++ post) := by
  have hskip : ∀ post : List (List Char),
      processLines parse ((sseDataHead ++ s) :: post) = processLines parse post := by
    intro post
    have hpre : sseDataHead.isPrefixOf (sseDataHead ++ s) = true := by
      simp [sseDataHead, List.isPrefixOf]
    have hdrop : (sseDataHead ++ s).drop 6 = s := by
      have h6 : sseDataHead.length = 6 := rfl
      rw [← h6, List.drop_left]
    by_cases h2 : (trimText s).isEmpty
    · simp [processLines, hpre, hdrop, h2]
    · simp [processLines, hpre, hdrop, h2, hs]
  intro pre post
  induction pre with
  | nil => simpa using hskip post
  | cons line rest ih =>
    by_cases h1 : sseDataHead.isPrefixOf line
    · by_cases h2 : (trimText (line.drop 6)).isEmpty
      · simpa [processLines, h1, h2] using ih
      · cases hp : parse (trimText (line.drop 6)) with
        | none => simpa [processLines, h1, h2, hp] using ih
        | some c =>
          by_cases h3 : c.done
          · simp [processLines, h1, h2, hp, h3]
          · simp [processLines, h1, h2, hp, h3, ih]
    · simpa [processLines, h1] using ih

/-- A newline-free line glued before a newline and further text splits off
as one complete line. -/
theorem splitLines_line_append (l rest : List Char) :
    '\n' ∉ l →
      splitLines (l ++ '\n' :: rest) = (l :: (splitLines rest).1, (splitLines rest).2) := by
  induction l with
  | nil => intro; simp [splitLines]
  | cons c cs ih =>
    intro h
    have hc : ¬c = '\n' := fun hceq => h (List.mem_cons.mpr (Or.inl hceq.symm))
    have hcs : '\n' ∉ cs := fun hm => h (List.mem_cons_of_mem _ hm)
    simp [splitLines, hc, ih hcs]

/-- Splitting the SSE text that encodes a list of newline-free lines
recovers exactly those lines, with an empty trailing buffer. -/
theorem splitLines_joinLines (L : List (List Char)) :
    (∀ l ∈ L, '\n' ∉ l) → splitLines (joinLines L) = (L, []) := by
  induction L with
  | nil => intro; rfl
  | cons l L' ih =>
    intro h
    have h1 : '\n' ∉ l := h l (List.mem_cons_self _ _)
    have h2 : ∀ l' ∈ L', '\n' ∉ l' := fun l' hl' => h l' (List.mem_cons_of_mem _ hl')
    have hjoin : joinLines (l :: L') = l ++ '\n' :: joinLines L' := by
      simp [joinLines]
    rw [hjoin, splitLines_line_append l _ h1, ih h2]

/-- C10: a `data:` line whose payload fails to parse is silently skipped by
`chatStream`: it yields no element, raises nothing (the model is a total
function), and does not end the sequence — the chunk sequence is exactly
the one produced without that line, so subsequent well-formed chunks are
still yielded.  Stated for line processing and for the full byte-stream
generator. -/
theorem C10_malformed_line_skipped (parse : List Char → Option ChatStreamChunk) :
    (∀ (pre post : List (List Char)) (s : List Char), parse (trimText s) = none →
      processLines parse (pre ++ (sseDataHead ++ s) :: post) =
        processLines parse (pre ++ post)) ∧
    (∀ (lines1 lines2 : List (List Char)) (s : List Char),
      (∀ l ∈ lines1, '\n' ∉ l) → (∀ l ∈ lines2, '\n' ∉ l) → '\n' ∉ s →
      parse (trimText s) = none →
      chatStream parse [joinLines (lines1 ++ (sseDataHead ++ s) :: lines2)] =
        chatStream parse [joinLines (lines1 ++ lines2)]) := by
  constructor
  · intro pre post s hs
    exact processLines_insert_malformed parse s hs pre post
  · intro lines1 lines2 s h1 h2 hs hparse
    have hnlbad : '\n' ∉ sseDataHead ++ s := by
      intro hm
      rcases List.mem_append.mp hm with hh | hh
      · simp [sseDataHead] at hh
      · exact hs hh
    have ha : ∀ l ∈ lines1 ++ (sseDataHead ++ s) :: lines2, '\n' ∉ l := by
      intro l hl
      rcases List.mem_append.mp hl with hh | hh
      · exact h1 l hh
      · rcases List.mem_cons.mp hh with rfl | hh
        · exact hnlbad
        · exact h2 l hh
    have hb : ∀ l ∈ lines1 ++ lines2, '\n' ∉ l := by
      intro l hl
      rcases List.mem_append.mp hl with hh | hh
      · exact h1 l hh
      · exact h2 l hh
    rw [chatStream_eq, chatStream_eq]
    simp only [List.flatten_cons, List.flatten_nil, List.append_nil]
    rw [splitLines_joinLines _ ha, splitLines_joinLines _ hb]
    rw [processLines_insert_malformed parse s hparse lines1 lines2]

/-- Instantiation of C10: a malformed payload between two well-formed data
lines changes nothing, and the two well-formed chunks are still yielded. -/
theorem C10_malformed_line_skipped_witness :
    exParse (trimText exBadPayload) = none ∧
    processLines exParse ([exLineX] ++ (sseDataHead ++ exBadPayload) :: [exLineDone]) =
      processLines exParse ([exLineX] ++ [exLineDone]) ∧
    processLines exParse ([exLineX] ++ [exLineDone]) = ([exXChunk, exDoneChunk], true) := by
  have h : exParse (trimText exBadPayload) = none := by decide
  exact ⟨h, (C10_malformed_line_skipped exParse).1 [exLineX] [exLineDone] exBadPayload h,
    by decide⟩

/-- The rows selected by `match_chunks` are rows of the store owned by the
requested document. -/
theorem mem_matchChunksRows {dist : List ℚ → List ℚ → ℚ} {store : List ChunkRow}
    {q : List ℚ} {doc k : Nat} {r : ChunkRow}
    (hr : r ∈ matchChunksRows dist store q doc k) :
    r ∈ store ∧ r.document_id = doc := by
  simp only [matchChunksRows] at hr
  have h1 := List.mem_of_mem_take hr
  have h2 := (List.perm_insertionSort (rowLe dist q) _).mem_iff.mp h1
  have h3 := List.mem_filter.mp h2
  exact ⟨h3.1, by simpa using h3.2⟩

/-- C1: the similarity search `match_chunks` called with `doc_id = A`
returns only chunks whose `document_id` is `A`; for every distinct
document `B` it never returns a chunk belonging to `B`.  (`match_chunks`
projects the selected rows to `(id, content, similarity)`; the ownership
statement is about the selected rows `matchChunksRows`.) -/
theorem C1_match_chunks_scoped (dist : List ℚ → List ℚ → ℚ) (store : List ChunkRow)
    (q : List ℚ) (A k : Nat) :
    (∀ r ∈ matchChunksRows dist store q A k, r.document_id = A) ∧
    (∀ B, B ≠ A → ∀ r ∈ matchChunksRows dist store q A k, r.document_id ≠ B) := by
  have hmem : ∀ r ∈ matchChunksRows dist store q A k, r.document_id = A :=
    fun r hr => (mem_matchChunksRows hr).2
  refine ⟨hmem, fun B hBA r hr => ?_⟩
  rw [hmem r hr]
  exact fun h => hBA h.symm

/-- Instantiation of C1 at a concrete two-document store: the query scoped
to document 1 selects the chunk `exRow1` and no chunk of document 2. -/
theorem C1_match_chunks_scoped_witness :
    (2 : Nat) ≠ 1 ∧ exRow1 ∈ matchChunksRows exDist exStore [0] 1 5 ∧
      exRow1.document_id ≠ 2 :=
  ⟨by decide,
    by simp [matchChunksRows, exStore, exRow1, exRow2, exRow3, rowLe, exDist, List.filter],
    (C1_match_chunks_scoped exDist exStore [0] 1 5).2 2 (by decide) exRow1
      (by simp [matchChunksRows, exStore, exRow1, exRow2, exRow3, rowLe, exDist, List.filter])⟩

/-- C4: every record returned by `match_chunks` carries the similarity
`1 - (embedding <=> query_embedding)` of the chunk it projects, the
selected rows are ordered by ascending distance, and hence the returned
similarities are in descending order. -/
theorem C4_similarity_and_ordering (dist : List ℚ → List ℚ → ℚ) (store : List ChunkRow)
    (q : List ℚ) (doc k : Nat) :
    (∀ t ∈ match_chunks dist store q doc k, ∃ r, r ∈ store ∧ r.document_id = doc ∧
        t.id = r.id ∧ t.content = r.content ∧ t.similarity = 1 - dist r.embedding q) ∧
    (matchChunksRows dist store q doc k).Pairwise (rowLe dist q) ∧
    ((match_chunks dist store q doc k).map MatchResult.similarity).Pairwise (· ≥ ·) := by
  have hsorted : (matchChunksRows dist store q doc k).Pairwise (rowLe dist q) := by
    simp only [matchChunksRows]
    exact (List.sorted_insertionSort (rowLe dist q) _).sublist (List.take_sublist _ _)
  refine ⟨?_, hsorted, ?_⟩
  · intro t ht
    simp only [match_chunks, List.mem_map] at ht
    obtain ⟨r, hr, hrt⟩ := ht
    obtain ⟨hrs, hrd⟩ := mem_matchChunksRows hr
    exact ⟨r, hrs, hrd, by rw [← hrt], by rw [← hrt], by rw [← hrt]⟩
  · simp only [match_chunks, List.map_map, List.pairwise_map]
    refine hsorted.imp ?_
    intro a b hab
    simpa using sub_le_sub_left hab 1

/-- Instantiation of C4: at the concrete store the top result for a query
near document 1's first chunk is that chunk, with similarity `1 - 0`. -/
theorem C4_similarity_and_ordering_witness :
    (⟨1, "alpha", 1⟩ : MatchResult) ∈ match_chunks exDist exStore [0] 1 5 ∧
      ∃ r, r ∈ exStore ∧ r.document_id = 1 ∧ (⟨1, "alpha", 1⟩ : MatchResult).id = r.id ∧
        (⟨1, "alpha", 1⟩ : MatchResult).content = r.content ∧
        (⟨1, "alpha", 1⟩ : MatchResult).similarity = 1 - exDist r.embedding [0] :=
  ⟨by simp [match_chunks, matchChunksRows, exStore, exRow1, exRow2, exRow3, rowLe, exDist,
      List.filter],
    (C4_similarity_and_ordering exDist exStore [0] 1 5).1 ⟨1, "alpha", 1⟩
      (by simp [match_chunks, matchChunksRows, exStore, exRow1, exRow2, exRow3, rowLe, exDist,
        List.filter])⟩

/-- C5: with the declared default `match_count int default 5` the search
returns at most 5 records, and any `k` at least the number of the
document's chunks returns all of them (the selected rows are a permutation
of the document's chunk rows) — the operation is total, so no error is
possible. -/
theorem C5_default_and_overlarge_k (dist : List ℚ → List ℚ → ℚ) (store : List ChunkRow)
    (q : List ℚ) (doc : Nat) :
    (match_chunks_default dist store q doc).length ≤ 5 ∧
    ∀ k, (store.filter (fun r => r.document_id = doc)).length ≤ k →
      (matchChunksRows dist store q doc k).Perm
        (store.filter (fun r => r.document_id = doc)) := by
  constructor
  · simp only [match_chunks_default, match_chunks, matchChunksRows, List.length_map,
      List.length_take]
    exact min_le_left _ _
  · intro k hk
    simp only [matchChunksRows]
    rw [List.take_of_length_le]
    · exact List.perm_insertionSort _ _
    · rw [(List.perm_insertionSort (rowLe dist q) _).length_eq]
      exact hk

/-- Instantiation of C5: document 1 has two chunks, and `k = 7` returns
both of them. -/
theorem C5_default_and_overlarge_k_witness :
    (exStore.filter (fun r => r.document_id = 1)).length ≤ 7 ∧
      (matchChunksRows exDist exStore [0] 1 7).Perm
        (exStore.filter (fun r => r.document_id = 1)) :=
  ⟨by decide, (C5_default_and_overlarge_k exDist exStore [0] 1).2 7 (by decide)⟩

end LearningAssistant
